import Mathlib

/-!
bag2video: argument parsing, codec selection and the frame driver loop.

A shallow embedding of `src/bag2video.cpp`.  Everything the program obtains
from its environment (the C library's `std::stod`, the file system, rosbag,
OpenCV's decoder, resampler and video writer, the clock) is a field of `Host`;
the program's own control flow is translated function by function.  Console
output and calls into the environment are recorded, in program order, as a
list of `Event`s.
-/

namespace Bag2Video

/-! ## Data model -/

/-- An IEEE double, as far as the program looks at one: not-a-number, an
infinity, or the finite value `m * 2 ^ e`. -/
inductive Double where
  | nan
  | negInf
  | posInf
  | finite (m : Int) (e : Int)
deriving DecidableEq, Repr

/-- The comparison `x <= 0.0` on doubles; false on NaN. -/
def Double.leZero : Double → Bool
  | .nan => false
  | .negInf => true
  | .posInf => false
  | .finite m _ => decide (m ≤ 0)

/-- Pixel dimensions, `cv::Size`. -/
structure Size where
  width : Nat
  height : Nat
deriving DecidableEq, Repr

/-- A raster image, `cv::Mat`: its dimensions and its pixel bytes. -/
structure Mat where
  size : Size
  data : List Nat
deriving DecidableEq, Repr

/-- Whether the matrix holds no element, `cv::Mat::empty()`. -/
def Mat.empty (m : Mat) : Bool :=
  m.data.isEmpty || m.size.width * m.size.height == 0

/-- Connection record of an archive, `rosbag::ConnectionInfo`. -/
structure ConnectionInfo where
  topic : String
  datatype : String
deriving DecidableEq, Repr

/-- One archive entry, `rosbag::MessageInstance`.  `image` is what
`instantiate<sensor_msgs::CompressedImage>()` yields: the payload bytes of a
compressed image, or nothing (a null pointer) for an entry of any other type. -/
structure MessageInstance where
  topic : String
  image : Option (List Nat)
deriving DecidableEq, Repr

/-- An opened archive: its connections and its entries in chronological order. -/
structure Bag where
  connections : List ConnectionInfo
  messages : List MessageInstance
deriving DecidableEq, Repr

/-- The entries selected by `rosbag::View(bag, rosbag::TopicQuery(topics))`, in
archive order. -/
def Bag.view (bag : Bag) (topics : List String) : List MessageInstance :=
  bag.messages.filter (fun m => decide (m.topic ∈ topics))

/-- What the program does to the outside world, in program order. -/
inductive Event where
  | cout (s : String)
  | cerr (s : String)
  | fsExists (path : String)
  | bagOpen (path : String)
  | bagClose
  | writerOpen (filename : String) (fourcc : Int) (fps : Double) (size : Size) (opened : Bool)
  | writerWrite (image : Mat)
  | writerRelease
deriving DecidableEq, Repr

/-- The environment of one run. -/
structure Host where
  /-- The function `std::stod`; `none` when it throws. -/
  stod : String → Option Double
  /-- The function `std::filesystem::exists`; `none` when it throws
  `filesystem_error` (the status of the path cannot be determined, as for a
  name that is too long). -/
  fileExists : String → Option Bool
  /-- The call `rosbag::Bag::open` in read mode; the error is the text of the `BagException`. -/
  bagOpen : String → Except String Bag
  /-- The call `cv::imdecode(buffer, cv::IMREAD_COLOR)` on the payload bytes. -/
  imdecode : List Nat → Mat
  /-- The call `cv::resize(image, image, size)`. -/
  resize : Mat → Size → Mat
  /-- Whether `cv::VideoWriter::open(filename, fourcc, fps, size, true)` leaves the writer opened. -/
  writerOpens : String → Int → Double → Size → Bool
  /-- How the output stream prints a double. -/
  showDouble : Double → String
  /-- Seconds between the two readings of the steady clock. -/
  elapsed : Double

/-- The record `Options` with its default member initialisers. -/
structure Options where
  bag_path : String := ""
  topic : String := "/baton/image_left/compressed"
  fps : Double := .finite 25 0
  output : String := "output.mp4"
  codec : String := "auto"
deriving DecidableEq, Repr

/-! ## parseArgs -/

/-- The function `printUsage`. -/
def printUsage : List Event :=
  [.cout ("Usage: bag2video --bag <bag_file> [--topic <topic>] [--fps <fps>] " ++
          "[--out <output.mp4>] [--codec h265|h264|auto]\n")]

/-- How the `for` loop of `parseArgs` is left. -/
inductive LoopResult where
  /-- The call `std::stod` threw; nothing catches it. -/
  | threw
  /-- A `return false` inside the loop, with the options as modified so far. -/
  | stopped (opt : Options) (trace : List Event)
  /-- The loop ran past the last token. -/
  | finished (opt : Options)
deriving DecidableEq, Repr

/-- The `for` loop of `parseArgs` over the tokens `argv[i], argv[i+1], ...`.
With a single token left `i + 1 < argc` is false, so only the last two branches
of the `else if` chain can be taken. -/
def parseLoop (h : Host) : List String → Options → LoopResult
  | [], opt => .finished opt
  | [arg], opt =>
    if arg = "--help" ∨ arg = "-h" then
      .stopped opt printUsage
    else
      .stopped opt (.cerr ("Unknown or incomplete argument: " ++ arg ++ "\n") :: printUsage)
  | arg :: v :: rest, opt =>
    if arg = "--bag" then
      parseLoop h rest { opt with bag_path := v }
    else if arg = "--topic" then
      parseLoop h rest { opt with topic := v }
    else if arg = "--fps" then
      match h.stod v with
      | none => .threw
      | some x => parseLoop h rest { opt with fps := x }
    else if arg = "--out" then
      parseLoop h rest { opt with output := v }
    else if arg = "--codec" then
      parseLoop h rest { opt with codec := v }
    else if arg = "--help" ∨ arg = "-h" then
      .stopped opt printUsage
    else
      .stopped opt (.cerr ("Unknown or incomplete argument: " ++ arg ++ "\n") :: printUsage)

/-- The function `parseArgs`: `none` when `std::stod` throws, otherwise the
returned flag, the options left in `opt`, and what was printed.  The loop
starts at `argv[1]`. -/
def parseArgs (h : Host) (argv : List String) (opt : Options) :
    Option (Bool × Options × List Event) :=
  match parseLoop h (argv.drop 1) opt with
  | .threw => none
  | .stopped o t => some (false, o, t)
  | .finished o =>
    if o.bag_path = "" then
      some (false, o, .cerr "Error: --bag is required.\n" :: printUsage)
    else if o.fps.leZero then
      some (false, o, [.cerr "Error: --fps must be positive.\n"])
    else if o.codec ≠ "auto" ∧ o.codec ≠ "h265" ∧ o.codec ≠ "h264" ∧
        o.codec ≠ "H265" ∧ o.codec ≠ "H264" then
      some (false, o, [.cerr "Error: --codec must be auto, h265, or h264.\n"])
    else
      some (true, o, [])

/-! ## Codec candidates and the encoder opener -/

/-- The bytes of a `std::string`: the UTF-8 encoding of the text. -/
def utf8Bytes (s : String) : List Nat :=
  s.data.flatMap (fun c => (String.utf8EncodeChar c).map UInt8.toNat)

/-- The function `cv::VideoWriter::fourcc` of OpenCV: four bytes packed
little-endian into a 32-bit `int`. -/
def fourcc (c1 c2 c3 c4 : Nat) : Int :=
  let n : Nat := (c1 % 256) + (c2 % 256) * 2 ^ 8 + (c3 % 256) * 2 ^ 16 + (c4 % 256) * 2 ^ 24
  if n < 2 ^ 31 then (n : Int) else (n : Int) - 2 ^ 32

/-- The function `fourccFromString`: 0 unless the string has exactly four bytes. -/
def fourccFromString (s : String) : Int :=
  match utf8Bytes s with
  | [c1, c2, c3, c4] => fourcc c1 c2 c3 c4
  | _ => 0

def hevc_codes : List String := ["HEVC", "H265", "X265", "hvc1", "hev1"]

def h264_codes : List String := ["H264", "X264", "avc1"]

/-- The list `codec_try` built in `main` from `opt.codec`. -/
def codecTry (codec : String) : List String :=
  if codec = "h265" ∨ codec = "H265" then
    hevc_codes
  else if codec = "h264" ∨ codec = "H264" then
    h264_codes
  else
    ([] ++ hevc_codes) ++ h264_codes

/-- The part of a `cv::VideoWriter` the program observes. -/
structure VideoWriter where
  isOpened : Bool := false
deriving DecidableEq, Repr

/-- What `tryOpenWriter` returns and leaves in its reference parameters. -/
structure OpenResult where
  ok : Bool
  writer : VideoWriter
  chosen_codec : String
  trace : List Event
deriving DecidableEq, Repr

/-- The function `tryOpenWriter`: the range-for over `codec_list`. -/
def tryOpenWriter (h : Host) (size : Size) (fps : Double) (filename : String) :
    VideoWriter → List String → String → OpenResult
  | writer, [], chosen_codec => ⟨false, writer, chosen_codec, []⟩
  | writer, c :: cs, chosen_codec =>
    let cc := fourccFromString c
    if cc = 0 then
      tryOpenWriter h size fps filename writer cs chosen_codec
    else
      let writer1 : VideoWriter := ⟨h.writerOpens filename cc fps size⟩
      let ev := Event.writerOpen filename cc fps size writer1.isOpened
      if writer1.isOpened then
        ⟨true, writer1, c, [ev]⟩
      else
        let r := tryOpenWriter h size fps filename writer1 cs chosen_codec
        { r with trace := ev :: r.trace }

/-! ## The available-topics report -/

/-- The call `std::set<std::string>::insert` on the set's sorted contents.
Strings are ordered as `std::string` orders them: lexicographically, which on
UTF-8 text is the lexicographic order of the code points. -/
def setInsert (t : String) : List String → List String
  | [] => [t]
  | x :: xs =>
    if t.data < x.data then t :: x :: xs
    else if x.data < t.data then x :: setInsert t xs
    else x :: xs

/-- The set `available` after the loop over `all.getConnections()`. -/
def availableTopics (bag : Bag) : List String :=
  bag.connections.foldl (fun available c => setInsert c.topic available) []

/-- What the `if (view.size() == 0)` block prints after its first line. -/
def reportAvailable (available : List String) : List Event :=
  if available ≠ [] then
    .cerr "Available topics in bag:\n" :: available.map (fun t => .cerr ("  " ++ t ++ "\n"))
  else
    []

/-! ## The driver loop and main -/

/-- The local variables of `main` that the frame loop updates, and the events so far. -/
structure LoopState where
  writer : VideoWriter := {}
  chosen_codec : String := ""
  frame_size : Size := ⟨0, 0⟩
  first_frame : Bool := true
  written : Nat := 0
  skipped_decode : Nat := 0
  trace : List Event := []
deriving DecidableEq, Repr

/-- One iteration of the frame loop.  `.error` is the `return 1` taken when no
encoder opens; `.ok` is the end of the body or a `continue`.  The counters are
`size_t`. -/
def loopBody (h : Host) (opt : Options) (codec_try : List String) (st : LoopState)
    (m : MessageInstance) : Except LoopState LoopState :=
  match m.image with
  | none => .ok st
  | some data =>
    let image := h.imdecode data
    if image.empty then
      .ok { st with skipped_decode := (st.skipped_decode + 1) % 2 ^ 64 }
    else
      let opened : Except LoopState LoopState :=
        if st.first_frame then
          let frame_size := image.size
          let r := tryOpenWriter h frame_size opt.fps opt.output st.writer codec_try st.chosen_codec
          if !r.ok then
            .error { st with
              writer := r.writer, chosen_codec := r.chosen_codec, frame_size := frame_size,
              trace := st.trace ++ r.trace ++
                [.cerr "Failed to open VideoWriter with requested codecs (H265 then H264 only).\n",
                 .bagClose] }
          else
            .ok { st with
              writer := r.writer, chosen_codec := r.chosen_codec, frame_size := frame_size,
              first_frame := false,
              trace := st.trace ++ r.trace ++
                [.cout ("VideoWriter opened with codec " ++ r.chosen_codec ++ ", size " ++
                  toString frame_size.width ++ "x" ++ toString frame_size.height ++ ", fps " ++
                  h.showDouble opt.fps ++ "\n")] }
        else
          .ok st
      match opened with
      | .error st1 => .error st1
      | .ok st1 =>
        let image1 := if image.size ≠ st1.frame_size then h.resize image st1.frame_size else image
        .ok { st1 with
          written := (st1.written + 1) % 2 ^ 64,
          trace := st1.trace ++ [.writerWrite image1] }

/-- The frame loop over the view. -/
def mainLoop (h : Host) (opt : Options) (codec_try : List String) :
    List MessageInstance → LoopState → Except LoopState LoopState
  | [], st => .ok st
  | m :: ms, st =>
    match loopBody h opt codec_try st m with
    | .error st1 => .error st1
    | .ok st1 => mainLoop h opt codec_try ms st1

/-- How a run ends: the value `main` returns (`none` when an uncaught exception,
thrown by `std::stod` or by `std::filesystem::exists`, ends the process
instead) and everything the run did. -/
structure Outcome where
  status : Option Int
  trace : List Event
deriving DecidableEq, Repr

/-- The function `main`. -/
def main (h : Host) (argv : List String) : Outcome :=
  match parseArgs h argv {} with
  | none => ⟨none, []⟩
  | some (false, _, t) => ⟨some 1, t⟩
  | some (true, opt, t) =>
    let codec_try := codecTry opt.codec
    match h.fileExists opt.bag_path with
    | none => ⟨none, t ++ [.fsExists opt.bag_path]⟩
    | some found =>
      if !found then
        ⟨some 1, t ++ [.fsExists opt.bag_path,
          .cerr ("Bag file not found: " ++ opt.bag_path ++ "\n")]⟩
      else
        match h.bagOpen opt.bag_path with
        | .error what =>
          ⟨some 1, t ++ [.fsExists opt.bag_path, .bagOpen opt.bag_path,
            .cerr ("Failed to open bag: " ++ what ++ "\n")]⟩
        | .ok bag =>
          let t1 := t ++ [.fsExists opt.bag_path, .bagOpen opt.bag_path]
          let view := bag.view [opt.topic]
          if view.length = 0 then
            ⟨some 1, t1 ++ [.cerr ("No messages found on topic " ++ opt.topic ++ "\n")] ++
              reportAvailable (availableTopics bag) ++ [.bagClose]⟩
          else
            match mainLoop h opt codec_try view { trace := t1 } with
            | .error st => ⟨some 1, st.trace⟩
            | .ok st =>
              let t2 := st.trace ++ [.writerRelease, .bagClose]
              if st.written = 0 then
                ⟨some 1, t2 ++ [.cerr "No frames written. Check bag and topic.\n"]⟩
              else
                let t3 := t2 ++ [.cout ("Finished writing " ++ toString st.written ++
                  " frames to " ++ opt.output ++ " using codec " ++ st.chosen_codec ++ " in " ++
                  h.showDouble h.elapsed ++ " s.\n")]
                if st.skipped_decode > 0 then
                  ⟨some 0, t3 ++ [.cout ("Skipped frames (decode failed): " ++
                    toString st.skipped_decode ++ "\n")]⟩
                else
                  ⟨some 0, t3⟩

/-! ## Notions used to state the properties -/

/-- The spellings of the `--codec` value that `parseArgs` lets through. -/
def acceptedCodecs : List String := ["auto", "h265", "h264", "H265", "H264"]

/-- The lower-case form of a text (letters A to Z mapped to a to z). -/
def lowerCase (s : String) : String := ⟨s.data.map Char.toLower⟩

/-- An event that only prints to the console. -/
def Event.isPrint : Event → Bool
  | .cout _ => true
  | .cerr _ => true
  | _ => false

/-- Whether the host opens an encoder for the tag of candidate `c`. -/
def opensOn (h : Host) (size : Size) (fps : Double) (filename : String) (c : String) : Bool :=
  h.writerOpens filename (fourccFromString c) fps size

/-- Whether candidate `c` converts to a non-zero tag, so that `tryOpenWriter`
does not skip it. -/
def hasTag (c : String) : Bool := decide (fourccFromString c ≠ 0)

/-- The event of attempting to open the encoder with candidate `c`. -/
def attempt (h : Host) (size : Size) (fps : Double) (filename : String) (c : String) : Event :=
  .writerOpen filename (fourccFromString c) fps size (opensOn h size fps filename c)

/-- The payloads of the entries that instantiate as a compressed image. -/
def payloads (view : List MessageInstance) : List (List Nat) :=
  view.filterMap (fun m => m.image)

/-- The successfully decoded frames of a view, in order. -/
def decodedFrames (h : Host) (view : List MessageInstance) : List Mat :=
  ((payloads view).map h.imdecode).filter (fun img => !img.empty)

/-- The number of image-typed entries of a view that fail to decode. -/
def failedCount (h : Host) (view : List MessageInstance) : Nat :=
  (((payloads view).map h.imdecode).filter (fun img => img.empty)).length

/-- The first successfully decoded frame of a view. -/
def firstFrame (h : Host) (view : List MessageInstance) : Option Mat :=
  (decodedFrames h view).head?

/-- A frame as handed to the encoder whose frame size is `frame_size`. -/
def fit (h : Host) (frame_size : Size) (image : Mat) : Mat :=
  if image.size ≠ frame_size then h.resize image frame_size else image

/-- The line printed when the encoder has been opened. -/
def openedLine (h : Host) (opt : Options) (codec : String) (frame_size : Size) : Event :=
  .cout ("VideoWriter opened with codec " ++ codec ++ ", size " ++
    toString frame_size.width ++ "x" ++ toString frame_size.height ++ ", fps " ++
    h.showDouble opt.fps ++ "\n")

/-- The statements of `main` after the frame loop, from the state the loop left. -/
def summary (h : Host) (opt : Options) (st : LoopState) : Outcome :=
  let t2 := st.trace ++ [.writerRelease, .bagClose]
  if st.written = 0 then
    ⟨some 1, t2 ++ [.cerr "No frames written. Check bag and topic.\n"]⟩
  else
    let t3 := t2 ++ [.cout ("Finished writing " ++ toString st.written ++ " frames to " ++
      opt.output ++ " using codec " ++ st.chosen_codec ++ " in " ++
      h.showDouble h.elapsed ++ " s.\n")]
    if st.skipped_decode > 0 then
      ⟨some 0, t3 ++ [.cout ("Skipped frames (decode failed): " ++
        toString st.skipped_decode ++ "\n")]⟩
    else
      ⟨some 0, t3⟩

/-- An event that hands a frame to the encoder. -/
def Event.isWrite : Event → Bool
  | .writerWrite _ => true
  | _ => false

/-- The number of frames handed to the encoder in a trace. -/
def writeCount (l : List Event) : Nat := (l.filter Event.isWrite).length

/-- No event of the list hands a frame to the encoder. -/
def NoWrite (l : List Event) : Prop := ∀ e ∈ l, ∀ img, e ≠ .writerWrite img

/-- An archive with four connections on three topics and five entries. -/
def sampleBag : Bag :=
  { connections := [⟨"/imu", "sensor_msgs/Imu"⟩, ⟨"/cam", "sensor_msgs/CompressedImage"⟩,
      ⟨"/imu", "sensor_msgs/Imu"⟩, ⟨"/bad", "sensor_msgs/CompressedImage"⟩],
    messages := [⟨"/cam", some [4, 3]⟩, ⟨"/imu", none⟩, ⟨"/cam", some []⟩, ⟨"/cam", none⟩,
      ⟨"/cam", some [8, 6]⟩, ⟨"/bad", some [0]⟩] }

/-- A host that reads a few decimal numbers, holds `sampleBag` under the path
`run.bag` and no other file, fails the existence check of a name longer than
255 bytes with an error (name too long), decodes a two-byte payload `[w, h]` to a `w` by `h` image and
anything else to the empty image, and has an H264 encoder only. -/
def sampleHost : Host :=
  { stod := fun s =>
      if s = "30" then some (.finite 30 0)
      else if s = "0" then some (.finite 0 0)
      else if s = "-5" then some (.finite (-5) 0)
      else if s = "nan" then some .nan
      else none,
    fileExists := fun p =>
      if 255 < p.utf8ByteSize then none else some (decide (p = "run.bag")),
    bagOpen := fun p => if p = "run.bag" then .ok sampleBag else .error "no such bag",
    imdecode := fun d =>
      match d with
      | [w, hh] => ⟨⟨w, hh⟩, List.replicate (3 * w * hh) 0⟩
      | _ => ⟨⟨0, 0⟩, []⟩,
    resize := fun m s => ⟨s, List.replicate (3 * s.width * s.height) (m.data.headD 0)⟩,
    writerOpens := fun _ cc _ _ => decide (cc = fourccFromString "H264"),
    showDouble := fun _ => "<double>",
    elapsed := .finite 1 0 }

/-- A host like `sampleHost` whose video backend opens only the tag 0. -/
def rawOnlyHost : Host :=
  { sampleHost with writerOpens := fun _ cc _ _ => decide (cc = 0) }

/-! ## Argument parsing -/

theorem parseLoop_append (h : Host) (rest : List String) :
    ∀ (pre : List String) (o o1 : Options), parseLoop h pre o = .finished o1 →
      parseLoop h (pre ++ rest) o = parseLoop h rest o1 := by
  intro pre o
  induction pre, o using parseLoop.induct h with
  | case1 opt => intro o1 hp; simp [parseLoop] at hp; subst hp; rfl
  | case2 arg opt hh => intro o1 hp; simp [parseLoop, hh] at hp
  | case3 arg opt hh => intro o1 hp; simp [parseLoop, hh] at hp
  | case4 v rest1 opt ih =>
    intro o1 hp
    simp only [parseLoop, if_true] at hp
    simpa [parseLoop] using ih o1 hp
  | case5 v rest1 opt h1 ih =>
    intro o1 hp
    simp only [parseLoop, h1, if_false, if_true] at hp
    simpa [parseLoop, h1] using ih o1 hp
  | case6 v rest1 opt hs h1 h2 =>
    intro o1 hp
    simp [parseLoop, h1, h2, hs] at hp
  | case7 v rest1 opt x hs h1 h2 ih =>
    intro o1 hp
    simp only [parseLoop, h1, h2, hs, if_false, if_true] at hp
    simpa [parseLoop, h1, h2, hs] using ih o1 hp
  | case8 v rest1 opt h1 h2 h3 ih =>
    intro o1 hp
    simp only [parseLoop, h1, h2, h3, if_false, if_true] at hp
    simpa [parseLoop, h1, h2, h3] using ih o1 hp
  | case9 v rest1 opt h1 h2 h3 h4 ih =>
    intro o1 hp
    simp only [parseLoop, h1, h2, h3, h4, if_false, if_true] at hp
    simpa [parseLoop, h1, h2, h3, h4] using ih o1 hp
  | case10 arg v rest1 opt h1 h2 h3 h4 h5 hh =>
    intro o1 hp
    simp [parseLoop, h1, h2, h3, h4, h5, hh] at hp
  | case11 arg v rest1 opt h1 h2 h3 h4 h5 hh =>
    intro o1 hp
    simp [parseLoop, h1, h2, h3, h4, h5, hh] at hp

/-- Whatever the loop of `parseArgs` prints when it returns early is console output. -/
theorem parseLoop_stopped_prints (h : Host) :
    ∀ (args : List String) (o o1 : Options) (t : List Event),
      parseLoop h args o = .stopped o1 t → ∀ e ∈ t, e.isPrint = true := by
  intro args o
  induction args, o using parseLoop.induct h with
  | case1 opt => intro o1 t hp; simp [parseLoop] at hp
  | case2 arg opt hh =>
    intro o1 t hp; simp only [parseLoop, hh, if_true] at hp
    injection hp with _ ht; subst ht; simp [printUsage, Event.isPrint]
  | case3 arg opt hh =>
    intro o1 t hp; simp only [parseLoop, hh, if_false] at hp
    injection hp with _ ht; subst ht; simp [printUsage, Event.isPrint]
  | case4 v rest1 opt ih =>
    intro o1 t hp; simp only [parseLoop, if_true] at hp; exact ih o1 t hp
  | case5 v rest1 opt h1 ih =>
    intro o1 t hp; simp only [parseLoop, h1, if_false, if_true] at hp; exact ih o1 t hp
  | case6 v rest1 opt hs h1 h2 =>
    intro o1 t hp; simp [parseLoop, h1, h2, hs] at hp
  | case7 v rest1 opt x hs h1 h2 ih =>
    intro o1 t hp; simp only [parseLoop, h1, h2, hs, if_false, if_true] at hp; exact ih o1 t hp
  | case8 v rest1 opt h1 h2 h3 ih =>
    intro o1 t hp; simp only [parseLoop, h1, h2, h3, if_false, if_true] at hp; exact ih o1 t hp
  | case9 v rest1 opt h1 h2 h3 h4 ih =>
    intro o1 t hp; simp only [parseLoop, h1, h2, h3, h4, if_false, if_true] at hp
    exact ih o1 t hp
  | case10 arg v rest1 opt h1 h2 h3 h4 h5 hh =>
    intro o1 t hp; simp only [parseLoop, h1, h2, h3, h4, h5, hh, if_false, if_true] at hp
    injection hp with _ ht; subst ht; simp [printUsage, Event.isPrint]
  | case11 arg v rest1 opt h1 h2 h3 h4 h5 hh =>
    intro o1 t hp; simp only [parseLoop, h1, h2, h3, h4, h5, hh, if_false] at hp
    injection hp with _ ht; subst ht; simp [printUsage, Event.isPrint]

/-- The loop stops at a help flag in flag position. -/
theorem parseLoop_help (h : Host) (flag : String) (post : List String) (o : Options)
    (hflag : flag = "--help" ∨ flag = "-h") :
    parseLoop h (flag :: post) o = .stopped o printUsage := by
  rcases hflag with rfl | rfl <;> cases post <;> simp [parseLoop]

/-- When `parseArgs` returns false, `main` returns 1 having done nothing more. -/
theorem main_of_parseArgs_false (h : Host) (argv : List String) (o : Options) (t : List Event)
    (hp : parseArgs h argv {} = some (false, o, t)) : main h argv = ⟨some 1, t⟩ := by
  simp [main, hp]

/-- Everything `parseArgs` does is console output. -/
theorem parseArgs_prints (h : Host) (argv : List String) (b : Bool) (o : Options)
    (t : List Event) (hp : parseArgs h argv {} = some (b, o, t)) :
    ∀ e ∈ t, e.isPrint = true := by
  unfold parseArgs at hp
  split at hp
  · simp at hp
  · rename_i o1 t1 hl
    simp only [Option.some.injEq, Prod.mk.injEq] at hp
    obtain ⟨_, _, rfl⟩ := hp
    exact parseLoop_stopped_prints h _ _ _ _ hl
  · split_ifs at hp <;> simp only [Option.some.injEq, Prod.mk.injEq] at hp <;>
      obtain ⟨_, _, rfl⟩ := hp <;> simp [printUsage, Event.isPrint]

/-- C1: the candidate list `main` builds is exactly HEVC, H265, X265, hvc1, hev1
for the preference `h265`, exactly H264, X264, avc1 for `h264`, and for `auto`
the first list followed immediately by the second, so that in the `auto` list
every identifier of the HEVC family stands before every identifier of the H264
family. -/
theorem codecTry_resolution :
    codecTry "h265" = ["HEVC", "H265", "X265", "hvc1", "hev1"] ∧
    codecTry "h264" = ["H264", "X264", "avc1"] ∧
    codecTry "auto" = codecTry "h265" ++ codecTry "h264" ∧
    codecTry "auto" = ["HEVC", "H265", "X265", "hvc1", "hev1", "H264", "X264", "avc1"] ∧
    (∀ i j : Fin 8, (codecTry "auto").getD i.val "" ∈ codecTry "h265" →
      (codecTry "auto").getD j.val "" ∈ codecTry "h264" → i < j) := by
  refine ⟨by decide, by decide, by decide, by decide, by decide⟩

/-- C2 fails as stated: on the arguments `--help` the exit status of `main` is 1, not 0. -/
theorem help_exit_status_is_one :
    (main sampleHost ["bag2video", "--help"]).status = some 1 ∧
    (main sampleHost ["bag2video", "--help"]).status ≠ some 0 := by
  decide

/-- C2, amended: whenever the loop of `parseArgs` gets through the tokens before
a help flag (`--help` or `-h`), so that the flag is reached in flag position,
`parseArgs` prints the usage text and returns false, and `main` returns 1 having
done nothing but print the usage text: no archive and no encoder is opened. -/
theorem help_prints_usage_and_exits_one (h : Host) (argv0 flag : String)
    (pre post : List String) (o : Options)
    (hflag : flag = "--help" ∨ flag = "-h")
    (hpre : parseLoop h pre {} = .finished o) :
    parseArgs h (argv0 :: (pre ++ flag :: post)) {} = some (false, o, printUsage) ∧
    main h (argv0 :: (pre ++ flag :: post)) = ⟨some 1, printUsage⟩ := by
  have hp : parseArgs h (argv0 :: (pre ++ flag :: post)) {} = some (false, o, printUsage) := by
    simp only [parseArgs, List.drop_succ_cons, List.drop_zero]
    rw [parseLoop_append h (flag :: post) pre {} o hpre, parseLoop_help h flag post o hflag]
  exact ⟨hp, main_of_parseArgs_false h _ o _ hp⟩

/-- The run on `--fps 30 -h --bag run.bag`: the help flag is reached after the frame rate. -/
theorem help_prints_usage_and_exits_one_witness :
    parseLoop sampleHost ["--fps", "30"] {} = .finished { fps := .finite 30 0 } ∧
    main sampleHost ("bag2video" :: (["--fps", "30"] ++ "-h" :: ["--bag", "run.bag"])) =
      ⟨some 1, printUsage⟩ :=
  ⟨by decide,
   (help_prints_usage_and_exits_one sampleHost "bag2video" "-h" ["--fps", "30"]
      ["--bag", "run.bag"] { fps := .finite 30 0 } (Or.inr rfl) (by decide)).2⟩

/-- C3 fails as stated: `AUTO` equals `auto` ignoring letter case, yet `parseArgs`
rejects `--codec AUTO` (with a bag path given and the default frame rate). -/
theorem codec_AUTO_rejected :
    lowerCase "AUTO" = "auto" ∧
    parseArgs sampleHost ["bag2video", "--bag", "run.bag", "--codec", "AUTO"] {} =
      some (false, { bag_path := "run.bag", codec := "AUTO" },
        [.cerr "Error: --codec must be auto, h265, or h264.\n"]) := by
  decide

/-- C3, amended: for every argument list that parses to a non-empty bag path and
a frame rate that is not `<= 0`, `parseArgs` accepts the `--codec` value if and
only if it is one of the five spellings `auto`, `h265`, `h264`, `H265`, `H264`
(any other spelling, such as `AUTO` or `Auto`, is rejected with the codec error
message), and an accepted value resolves to the same candidate list as its
lower-case form. -/
theorem codec_accepted_iff_listed (h : Host) (argv : List String) (o : Options)
    (hloop : parseLoop h (argv.drop 1) {} = .finished o)
    (hbag : o.bag_path ≠ "") (hfps : o.fps.leZero = false) :
    (parseArgs h argv {} = some (true, o, []) ↔ o.codec ∈ acceptedCodecs) ∧
    (o.codec ∉ acceptedCodecs → parseArgs h argv {} =
      some (false, o, [.cerr "Error: --codec must be auto, h265, or h264.\n"])) ∧
    (o.codec ∈ acceptedCodecs → lowerCase o.codec ∈ ["auto", "h265", "h264"] ∧
      codecTry o.codec = codecTry (lowerCase o.codec)) := by
  have hmem : o.codec ∈ acceptedCodecs ↔
      ¬ (o.codec ≠ "auto" ∧ o.codec ≠ "h265" ∧ o.codec ≠ "h264" ∧
        o.codec ≠ "H265" ∧ o.codec ≠ "H264") := by
    simp only [acceptedCodecs, List.mem_cons, List.mem_singleton, List.not_mem_nil, or_false]
    tauto
  refine ⟨?_, ?_, ?_⟩
  · by_cases hc : o.codec ∈ acceptedCodecs
    · have hc1 := hmem.1 hc
      simp only [parseArgs, hloop, hbag, hfps, if_false, Bool.false_eq_true, if_neg hc1, hc]
    · have hc1 := not_not.1 (mt hmem.2 hc)
      simp only [parseArgs, hloop, hbag, hfps, if_false, Bool.false_eq_true, if_pos hc1, hc,
        Option.some.injEq, Prod.mk.injEq, Bool.false_eq_true, false_and]
  · intro hc
    have hc1 := not_not.1 (mt hmem.2 hc)
    simp only [parseArgs, hloop, hbag, hfps, if_false, Bool.false_eq_true, if_pos hc1]
  · intro hc
    simp only [acceptedCodecs, List.mem_cons, List.mem_singleton, List.not_mem_nil,
      or_false] at hc
    rcases hc with hc | hc | hc | hc | hc <;> rw [hc] <;> decide

/-- The run on `--bag run.bag --codec H265`: the value is accepted and resolves as `h265` does. -/
theorem codec_accepted_iff_listed_witness :
    parseLoop sampleHost (["bag2video", "--bag", "run.bag", "--codec", "H265"].drop 1) {} =
      .finished { bag_path := "run.bag", codec := "H265" } ∧
    (parseArgs sampleHost ["bag2video", "--bag", "run.bag", "--codec", "H265"] {} =
        some (true, { bag_path := "run.bag", codec := "H265" }, []) ↔
      "H265" ∈ acceptedCodecs) ∧
    codecTry "H265" = codecTry (lowerCase "H265") :=
  have w := codec_accepted_iff_listed sampleHost
    ["bag2video", "--bag", "run.bag", "--codec", "H265"]
    { bag_path := "run.bag", codec := "H265" } (by decide) (by decide) (by decide)
  ⟨by decide, w.1, (w.2.2 (by decide)).2⟩

/-- C5: whenever the frame rate that `parseArgs` leaves in the options is `<= 0`
(as after `--fps 0` or `--fps -5`), `parseArgs` returns false and `main` returns
1 having done nothing but console output: the bag file is neither looked up nor
opened and no encoder is opened. -/
theorem nonpositive_fps_fails_early (h : Host) (argv : List String) (b : Bool)
    (o : Options) (t : List Event)
    (hp : parseArgs h argv {} = some (b, o, t)) (hfps : o.fps.leZero = true) :
    b = false ∧ main h argv = ⟨some 1, t⟩ ∧
    ∀ e ∈ (main h argv).trace, e.isPrint = true := by
  have hb : b = false := by
    unfold parseArgs at hp
    split at hp
    · simp at hp
    · simp only [Option.some.injEq, Prod.mk.injEq] at hp
      exact hp.1.symm
    · split_ifs at hp with h1 h2 h3 <;> simp only [Option.some.injEq, Prod.mk.injEq] at hp
      · exact hp.1.symm
      · exact hp.1.symm
      · exact hp.1.symm
      · obtain ⟨_, rfl, _⟩ := hp
        exact absurd hfps h2
  subst hb
  have hm := main_of_parseArgs_false h argv o t hp
  refine ⟨rfl, hm, ?_⟩
  rw [hm]
  exact parseArgs_prints h argv false o t hp

/-- The run on `--bag run.bag --fps -5`. -/
theorem nonpositive_fps_fails_early_witness :
    parseArgs sampleHost ["bag2video", "--bag", "run.bag", "--fps", "-5"] {} =
      some (false, { bag_path := "run.bag", fps := .finite (-5) 0 },
        [.cerr "Error: --fps must be positive.\n"]) ∧
    main sampleHost ["bag2video", "--bag", "run.bag", "--fps", "-5"] =
      ⟨some 1, [.cerr "Error: --fps must be positive.\n"]⟩ :=
  ⟨by decide,
   (nonpositive_fps_fails_early sampleHost ["bag2video", "--bag", "run.bag", "--fps", "-5"]
      false { bag_path := "run.bag", fps := .finite (-5) 0 }
      [.cerr "Error: --fps must be positive.\n"] (by decide) (by decide)).2.1⟩

/-! ## The encoder opener -/

theorem utf8Bytes_lt (s : String) : ∀ b ∈ utf8Bytes s, b < 256 := by
  intro b hb
  simp only [utf8Bytes, List.mem_flatMap, List.mem_map] at hb
  obtain ⟨c, _, u, _, rfl⟩ := hb
  exact u.toNat_lt

theorem fourcc_eq_zero (a b c d : Nat) (ha : a < 256) (hb : b < 256) (hc : c < 256)
    (hd : d < 256) : fourcc a b c d = 0 ↔ a = 0 ∧ b = 0 ∧ c = 0 ∧ d = 0 := by
  unfold fourcc
  simp only []
  split_ifs with h1 <;> constructor <;> intro h2 <;> omega

/-- A text converts to a non-zero tag exactly when it has four bytes that are
not all zero. -/
theorem fourccFromString_ne_zero (s : String) :
    fourccFromString s ≠ 0 ↔ (utf8Bytes s).length = 4 ∧ utf8Bytes s ≠ [0, 0, 0, 0] := by
  have hlt := utf8Bytes_lt s
  unfold fourccFromString
  split
  · rename_i a b c d heq
    rw [heq] at hlt ⊢
    have := fourcc_eq_zero a b c d (hlt a (by simp)) (hlt b (by simp)) (hlt c (by simp))
      (hlt d (by simp))
    simp [this]
  · rename_i hne
    simp only [ne_eq, not_true_eq_false, false_iff, not_and, not_not]
    intro hl
    exfalso
    match hs : utf8Bytes s, hl with
    | [a, b, c, d], _ => exact hne a b c d hs

/-- What `tryOpenWriter` returns when it fails: every candidate with a tag was
attempted, none opened, and `chosen_codec` is untouched. -/
theorem tryOpenWriter_false (h : Host) (size : Size) (fps : Double) (filename : String) :
    ∀ (list : List String) (writer : VideoWriter) (chosen : String),
      (∀ c ∈ list, fourccFromString c ≠ 0 → opensOn h size fps filename c = false) →
      (tryOpenWriter h size fps filename writer list chosen).ok = false ∧
      (tryOpenWriter h size fps filename writer list chosen).chosen_codec = chosen ∧
      (tryOpenWriter h size fps filename writer list chosen).trace =
        (list.filter hasTag).map (attempt h size fps filename) := by
  intro list
  induction list with
  | nil => intro writer chosen _; simp [tryOpenWriter]
  | cons c cs ih =>
    intro writer chosen hall
    have hcs : ∀ x ∈ cs, fourccFromString x ≠ 0 → opensOn h size fps filename x = false :=
      fun x hx => hall x (List.mem_cons_of_mem c hx)
    by_cases hc : fourccFromString c = 0
    · have ht : hasTag c = false := by simp [hasTag, hc]
      simp only [tryOpenWriter, hc, if_true, List.filter_cons, ht]
      exact ih writer chosen hcs
    · have ht : hasTag c = true := by simp [hasTag, hc]
      have ho : h.writerOpens filename (fourccFromString c) fps size = false :=
        hall c (List.mem_cons_self c cs) hc
      obtain ⟨i1, i2, i3⟩ := ih ⟨false⟩ chosen hcs
      simp only [tryOpenWriter, hc, if_false, ho, Bool.false_eq_true, List.filter_cons, ht,
        if_true, List.map_cons, i1, i2, i3, attempt, opensOn, and_self]

/-- What `tryOpenWriter` returns when a candidate with a tag opens after a
prefix in which none does. -/
theorem tryOpenWriter_true (h : Host) (size : Size) (fps : Double) (filename : String)
    (c : String) (post : List String) (hc : fourccFromString c ≠ 0)
    (ho : opensOn h size fps filename c = true) :
    ∀ (pre : List String) (writer : VideoWriter) (chosen : String),
      (∀ x ∈ pre, fourccFromString x ≠ 0 → opensOn h size fps filename x = false) →
      tryOpenWriter h size fps filename writer (pre ++ c :: post) chosen =
        ⟨true, ⟨true⟩, c, (pre.filter hasTag ++ [c]).map (attempt h size fps filename)⟩ := by
  intro pre
  induction pre with
  | nil =>
    intro writer chosen _
    have ho1 : h.writerOpens filename (fourccFromString c) fps size = true := ho
    simp [tryOpenWriter, hc, ho1, attempt, opensOn]
  | cons x xs ih =>
    intro writer chosen hall
    have hxs : ∀ y ∈ xs, fourccFromString y ≠ 0 → opensOn h size fps filename y = false :=
      fun y hy => hall y (List.mem_cons_of_mem x hy)
    by_cases hx : fourccFromString x = 0
    · have ht : hasTag x = false := by simp [hasTag, hx]
      simp only [List.cons_append, tryOpenWriter, hx, if_true, List.filter_cons, ht]
      exact ih writer chosen hxs
    · have ht : hasTag x = true := by simp [hasTag, hx]
      have hox : h.writerOpens filename (fourccFromString x) fps size = false :=
        hall x (List.mem_cons_self x xs) hx
      have i := ih ⟨false⟩ chosen hxs
      simp only [List.cons_append, tryOpenWriter, hx, if_false, hox, Bool.false_eq_true,
        List.filter_cons, ht, if_true, List.map_cons]
      rw [show xs.append (c :: post) = xs ++ c :: post from rfl, i]
      simp only [attempt, opensOn, hox]

/-- Either no candidate with a tag opens, or the list splits at the first one that does. -/
theorem first_opening_split (p : String → Prop) [DecidablePred p] :
    ∀ list : List String, (∀ c ∈ list, ¬ p c) ∨
      ∃ pre c post, list = pre ++ c :: post ∧ p c ∧ ∀ x ∈ pre, ¬ p x := by
  intro list
  induction list with
  | nil => left; simp
  | cons a as ih =>
    by_cases ha : p a
    · right; exact ⟨[], a, as, rfl, ha, by simp⟩
    · rcases ih with hn | ⟨pre, c, post, he, hc, hpre⟩
      · left
        intro c hc
        rcases List.mem_cons.1 hc with rfl | hc
        · exact ha
        · exact hn c hc
      · right
        refine ⟨a :: pre, c, post, by simp [he], hc, ?_⟩
        intro x hx
        rcases List.mem_cons.1 hx with rfl | hx
        · exact ha
        · exact hpre x hx

/-- C8 fails as stated: the candidate of four NUL characters has four characters
and the host opens an encoder for its tag (the tag 0), yet `tryOpenWriter`
skips it and returns false. -/
theorem four_nul_candidate_skipped :
    String.length "\x00\x00\x00\x00" = 4 ∧
    utf8Bytes "\x00\x00\x00\x00" = [0, 0, 0, 0] ∧
    rawOnlyHost.writerOpens "output.mp4" (fourcc 0 0 0 0) (.finite 25 0) ⟨640, 480⟩ = true ∧
    (tryOpenWriter rawOnlyHost ⟨640, 480⟩ (.finite 25 0) "output.mp4" {}
      ["\x00\x00\x00\x00"] "") = ⟨false, {}, "", []⟩ := by
  decide

/-- The attempts `tryOpenWriter` records are open attempts on candidates, the
last of which succeeded when it returns true. -/
theorem tryOpenWriter_trace (h : Host) (size : Size) (fps : Double) (filename : String)
    (writer : VideoWriter) (list : List String) (chosen : String) :
    ∃ tried : List String,
      (tryOpenWriter h size fps filename writer list chosen).trace =
        tried.map (attempt h size fps filename) ∧
      ((tryOpenWriter h size fps filename writer list chosen).ok = true →
        ∃ before c, tried = before ++ [c] ∧ opensOn h size fps filename c = true) := by
  rcases first_opening_split
      (fun c => fourccFromString c ≠ 0 ∧ opensOn h size fps filename c = true) list with
    hn | ⟨pre, c, post, he, ⟨hc, ho⟩, hpre⟩
  · have hall : ∀ c ∈ list, fourccFromString c ≠ 0 → opensOn h size fps filename c = false := by
      intro c hc ht
      have := hn c hc
      simp only [not_and, Bool.not_eq_true] at this
      exact this ht
    obtain ⟨r1, _, r3⟩ := tryOpenWriter_false h size fps filename list writer chosen hall
    refine ⟨list.filter hasTag, r3, fun ht => ?_⟩
    rw [r1] at ht
    exact absurd ht (by decide)
  · have hpre1 : ∀ x ∈ pre, fourccFromString x ≠ 0 → opensOn h size fps filename x = false := by
      intro x hx ht
      have := hpre x hx
      simp only [not_and, Bool.not_eq_true] at this
      exact this ht
    have hr := tryOpenWriter_true h size fps filename c post hc ho pre writer chosen hpre1
    rw [← he] at hr
    rw [hr]
    exact ⟨pre.filter hasTag ++ [c], rfl, fun _ => ⟨pre.filter hasTag, c, rfl, ho⟩⟩

/-- C8, amended: for every candidate list and every host, `tryOpenWriter` skips
the candidates whose tag is zero (those that do not have exactly four bytes, and
the one of four zero bytes) and attempts the others in list order, stopping at
the first that opens.  It returns true with `chosen_codec` equal to the first
candidate with a non-zero tag whose open succeeds, having attempted no later
candidate, and it returns false, leaving `chosen_codec` unchanged, if and only
if no candidate with a non-zero tag opens. -/
theorem tryOpenWriter_first_opening (h : Host) (size : Size) (fps : Double)
    (filename : String) (writer : VideoWriter) (list : List String) (chosen : String) :
    (∀ c, fourccFromString c ≠ 0 ↔ (utf8Bytes c).length = 4 ∧ utf8Bytes c ≠ [0, 0, 0, 0]) ∧
    ((tryOpenWriter h size fps filename writer list chosen).ok = false ↔
      ∀ c ∈ list, fourccFromString c ≠ 0 → opensOn h size fps filename c = false) ∧
    ((tryOpenWriter h size fps filename writer list chosen).ok = false →
      (tryOpenWriter h size fps filename writer list chosen).chosen_codec = chosen ∧
      (tryOpenWriter h size fps filename writer list chosen).trace =
        (list.filter hasTag).map (attempt h size fps filename)) ∧
    ((tryOpenWriter h size fps filename writer list chosen).ok = true →
      ∃ pre c post, list = pre ++ c :: post ∧
        fourccFromString c ≠ 0 ∧ opensOn h size fps filename c = true ∧
        (∀ x ∈ pre, fourccFromString x ≠ 0 → opensOn h size fps filename x = false) ∧
        (tryOpenWriter h size fps filename writer list chosen).chosen_codec = c ∧
        (tryOpenWriter h size fps filename writer list chosen).writer.isOpened = true ∧
        (tryOpenWriter h size fps filename writer list chosen).trace =
          (pre.filter hasTag ++ [c]).map (attempt h size fps filename)) := by
  refine ⟨fourccFromString_ne_zero, ?_⟩
  rcases first_opening_split
      (fun c => fourccFromString c ≠ 0 ∧ opensOn h size fps filename c = true) list with
    hn | ⟨pre, c, post, he, ⟨hc, ho⟩, hpre⟩
  · have hall : ∀ c ∈ list, fourccFromString c ≠ 0 → opensOn h size fps filename c = false := by
      intro c hc ht
      have := hn c hc
      simp only [not_and, Bool.not_eq_true] at this
      exact this ht
    obtain ⟨r1, r2, r3⟩ := tryOpenWriter_false h size fps filename list writer chosen hall
    refine ⟨⟨fun _ => hall, fun _ => r1⟩, fun _ => ⟨r2, r3⟩, ?_⟩
    intro ht
    rw [r1] at ht
    exact absurd ht (by decide)
  · have hpre1 : ∀ x ∈ pre, fourccFromString x ≠ 0 → opensOn h size fps filename x = false := by
      intro x hx ht
      have := hpre x hx
      simp only [not_and, Bool.not_eq_true] at this
      exact this ht
    have hr := tryOpenWriter_true h size fps filename c post hc ho pre writer chosen hpre1
    rw [← he] at hr
    rw [hr]
    refine ⟨⟨fun hf => absurd hf (by simp), ?_⟩, fun hf => absurd hf (by simp), ?_⟩
    · intro hall
      have := hall c (by rw [he]; simp) hc
      rw [ho] at this
      exact absurd this (by decide)
    · intro _
      exact ⟨pre, c, post, he, hc, ho, hpre1, rfl, rfl, rfl⟩

/-! ## The driver loop -/

theorem two64_pos : 0 < 2 ^ 64 := by norm_num

/-- The frame loop once the encoder is open: it runs to the end, writing every
decoded frame at the fixed frame size and counting every failed decode. -/
theorem mainLoop_opened (h : Host) (opt : Options) (ct : List String) :
    ∀ (view : List MessageInstance) (w : VideoWriter) (cc : String) (fs : Size)
      (wr sk : Nat) (tr : List Event), wr < 2 ^ 64 → sk < 2 ^ 64 →
      mainLoop h opt ct view ⟨w, cc, fs, false, wr, sk, tr⟩ = .ok ⟨w, cc, fs, false,
        (wr + (decodedFrames h view).length) % 2 ^ 64,
        (sk + failedCount h view) % 2 ^ 64,
        tr ++ (decodedFrames h view).map (fun img => .writerWrite (fit h fs img))⟩ := by
  intro view
  induction view with
  | nil =>
    intro w cc fs wr sk tr hw hs
    simp only [mainLoop, decodedFrames, failedCount, payloads, List.filterMap_nil, List.map_nil,
      List.filter_nil, List.length_nil, Nat.add_zero, List.append_nil,
      Nat.mod_eq_of_lt hw, Nat.mod_eq_of_lt hs]
  | cons m ms ih =>
    intro w cc fs wr sk tr hw hs
    cases hm : m.image with
    | none =>
      have hb : loopBody h opt ct ⟨w, cc, fs, false, wr, sk, tr⟩ m =
          .ok ⟨w, cc, fs, false, wr, sk, tr⟩ := by simp [loopBody, hm]
      have hp : payloads (m :: ms) = payloads ms := by simp [payloads, hm]
      simp only [mainLoop, hb, decodedFrames, failedCount, hp]
      exact ih w cc fs wr sk tr hw hs
    | some data =>
      have hp : payloads (m :: ms) = data :: payloads ms := by simp [payloads, hm]
      by_cases he : (h.imdecode data).empty = true
      · have hb : loopBody h opt ct ⟨w, cc, fs, false, wr, sk, tr⟩ m =
            .ok ⟨w, cc, fs, false, wr, (sk + 1) % 2 ^ 64, tr⟩ := by
          simp [loopBody, hm, he]
        have hd : decodedFrames h (m :: ms) = decodedFrames h ms := by
          simp [decodedFrames, hp, he]
        have hc : failedCount h (m :: ms) = failedCount h ms + 1 := by
          simp [failedCount, hp, he]
        simp only [mainLoop, hb, hd, hc]
        rw [ih w cc fs wr _ tr hw (Nat.mod_lt _ two64_pos)]
        simp only [Except.ok.injEq, LoopState.mk.injEq, true_and, and_true]
        omega
      · have he1 : (h.imdecode data).empty = false := by simpa using he
        have hb : loopBody h opt ct ⟨w, cc, fs, false, wr, sk, tr⟩ m =
            .ok ⟨w, cc, fs, false, (wr + 1) % 2 ^ 64, sk,
              tr ++ [.writerWrite (fit h fs (h.imdecode data))]⟩ := by
          simp [loopBody, hm, he1, fit]
        have hd : decodedFrames h (m :: ms) = h.imdecode data :: decodedFrames h ms := by
          simp [decodedFrames, hp, he1]
        have hc : failedCount h (m :: ms) = failedCount h ms := by
          simp [failedCount, hp, he1]
        simp only [mainLoop, hb, hd, hc]
        rw [ih w cc fs _ sk _ (Nat.mod_lt _ two64_pos) hs]
        simp only [Except.ok.injEq, LoopState.mk.injEq, true_and, and_true, List.length_cons,
          List.map_cons, List.append_assoc, List.singleton_append]
        omega

/-- The frame loop before the encoder is open: it ends with nothing written when
no frame decodes, and otherwise turns on whether an encoder opens for the first
decoded frame. -/
theorem mainLoop_initial (h : Host) (opt : Options) (ct : List String) :
    ∀ (view : List MessageInstance) (w : VideoWriter) (cc : String) (fs0 : Size)
      (wr sk : Nat) (tr : List Event), wr < 2 ^ 64 → sk < 2 ^ 64 →
      (decodedFrames h view = [] →
        mainLoop h opt ct view ⟨w, cc, fs0, true, wr, sk, tr⟩ =
          .ok ⟨w, cc, fs0, true, wr, (sk + failedCount h view) % 2 ^ 64, tr⟩) ∧
      (∀ f rest, decodedFrames h view = f :: rest →
        ((tryOpenWriter h f.size opt.fps opt.output w ct cc).ok = false →
          ∃ sk1, mainLoop h opt ct view ⟨w, cc, fs0, true, wr, sk, tr⟩ =
            .error ⟨(tryOpenWriter h f.size opt.fps opt.output w ct cc).writer,
              (tryOpenWriter h f.size opt.fps opt.output w ct cc).chosen_codec, f.size, true, wr,
              sk1, tr ++ (tryOpenWriter h f.size opt.fps opt.output w ct cc).trace ++
                [.cerr "Failed to open VideoWriter with requested codecs (H265 then H264 only).\n",
                 .bagClose]⟩) ∧
        ((tryOpenWriter h f.size opt.fps opt.output w ct cc).ok = true →
          mainLoop h opt ct view ⟨w, cc, fs0, true, wr, sk, tr⟩ =
            .ok ⟨(tryOpenWriter h f.size opt.fps opt.output w ct cc).writer,
              (tryOpenWriter h f.size opt.fps opt.output w ct cc).chosen_codec, f.size, false,
              (wr + (f :: rest).length) % 2 ^ 64, (sk + failedCount h view) % 2 ^ 64,
              tr ++ (tryOpenWriter h f.size opt.fps opt.output w ct cc).trace ++
                [openedLine h opt (tryOpenWriter h f.size opt.fps opt.output w ct cc).chosen_codec
                  f.size] ++
                (f :: rest).map (fun img => .writerWrite (fit h f.size img))⟩)) := by
  intro view
  induction view with
  | nil =>
    intro w cc fs0 wr sk tr hw hs
    refine ⟨fun _ => ?_, fun f rest hd => ?_⟩
    · simp only [mainLoop, failedCount, payloads, List.filterMap_nil, List.map_nil,
        List.filter_nil, List.length_nil, Nat.add_zero, Nat.mod_eq_of_lt hs]
    · simp [decodedFrames, payloads] at hd
  | cons m ms ih =>
    intro w cc fs0 wr sk tr hw hs
    cases hm : m.image with
    | none =>
      have hb : loopBody h opt ct ⟨w, cc, fs0, true, wr, sk, tr⟩ m =
          .ok ⟨w, cc, fs0, true, wr, sk, tr⟩ := by simp [loopBody, hm]
      have hp : payloads (m :: ms) = payloads ms := by simp [payloads, hm]
      simp only [mainLoop, hb, decodedFrames, failedCount, hp]
      exact ih w cc fs0 wr sk tr hw hs
    | some data =>
      have hp : payloads (m :: ms) = data :: payloads ms := by simp [payloads, hm]
      by_cases he : (h.imdecode data).empty = true
      · have hb : loopBody h opt ct ⟨w, cc, fs0, true, wr, sk, tr⟩ m =
            .ok ⟨w, cc, fs0, true, wr, (sk + 1) % 2 ^ 64, tr⟩ := by
          simp [loopBody, hm, he]
        have hd : decodedFrames h (m :: ms) = decodedFrames h ms := by
          simp [decodedFrames, hp, he]
        have hc : failedCount h (m :: ms) = failedCount h ms + 1 := by
          simp [failedCount, hp, he]
        have hmod : ((sk + 1) % 2 ^ 64 + failedCount h ms) % 2 ^ 64 =
            (sk + (failedCount h ms + 1)) % 2 ^ 64 := by omega
        obtain ⟨i1, i2⟩ := ih w cc fs0 wr ((sk + 1) % 2 ^ 64) tr hw (Nat.mod_lt _ two64_pos)
        simp only [mainLoop, hb, hd, hc]
        refine ⟨fun hn => ?_, fun f rest hfr => ⟨fun hko => ?_, fun hok => ?_⟩⟩
        · rw [i1 hn, hmod]
        · exact (i2 f rest hfr).1 hko
        · rw [(i2 f rest hfr).2 hok, hmod]
      · have he1 : (h.imdecode data).empty = false := by simpa using he
        have hd : decodedFrames h (m :: ms) = h.imdecode data :: decodedFrames h ms := by
          simp [decodedFrames, hp, he1]
        have hc : failedCount h (m :: ms) = failedCount h ms := by
          simp [failedCount, hp, he1]
        refine ⟨fun hn => ?_, fun f rest hfr => ⟨fun hko => ?_, fun hok => ?_⟩⟩
        · rw [hd] at hn; simp at hn
        · rw [hd] at hfr
          injection hfr with hf hr
          subst hf
          refine ⟨sk, ?_⟩
          simp [mainLoop, loopBody, hm, he1, hko]
        · rw [hd] at hfr
          injection hfr with hf hr
          subst hf
          have hb : loopBody h opt ct ⟨w, cc, fs0, true, wr, sk, tr⟩ m =
              .ok ⟨(tryOpenWriter h (h.imdecode data).size opt.fps opt.output w ct cc).writer,
                (tryOpenWriter h (h.imdecode data).size opt.fps opt.output w ct cc).chosen_codec,
                (h.imdecode data).size, false, (wr + 1) % 2 ^ 64, sk,
                tr ++ (tryOpenWriter h (h.imdecode data).size opt.fps opt.output w ct cc).trace ++
                  [openedLine h opt
                    (tryOpenWriter h (h.imdecode data).size opt.fps opt.output w ct cc).chosen_codec
                    (h.imdecode data).size] ++
                  [.writerWrite (fit h (h.imdecode data).size (h.imdecode data))]⟩ := by
            simp [loopBody, hm, he1, hok, fit, openedLine]
          simp only [mainLoop, hb, hc]
          rw [mainLoop_opened h opt ct ms _ _ _ _ sk _ (Nat.mod_lt _ two64_pos) hs, hr]
          simp only [Except.ok.injEq, LoopState.mk.injEq, true_and, and_true, List.length_cons,
            List.map_cons, List.append_assoc, List.singleton_append, List.cons_append,
            List.nil_append]
          omega

/-- Every image-typed entry of a view either decodes or fails to. -/
theorem counts_split (h : Host) (view : List MessageInstance) :
    (decodedFrames h view).length + failedCount h view =
      (view.filter (fun m => m.image.isSome)).length ∧
    (view.filter (fun m => m.image.isSome)).length ≤ view.length := by
  refine ⟨?_, List.length_filter_le _ _⟩
  induction view with
  | nil => simp [decodedFrames, failedCount, payloads]
  | cons m ms ih =>
    cases hm : m.image with
    | none =>
      have hp : payloads (m :: ms) = payloads ms := by simp [payloads, hm]
      simp only [decodedFrames, failedCount, hp, List.filter_cons, hm, Option.isSome_none,
        Bool.false_eq_true, if_false]
      exact ih
    | some data =>
      have hp : payloads (m :: ms) = data :: payloads ms := by simp [payloads, hm]
      simp only [decodedFrames, failedCount] at ih
      by_cases he : (h.imdecode data).empty = true
      · simp [decodedFrames, failedCount, hp, hm, he]
        omega
      · have he1 : (h.imdecode data).empty = false := by simpa using he
        simp [decodedFrames, failedCount, hp, hm, he1]
        omega

/-- The run of `main` once the archive is open and the view is not empty. -/
theorem main_loop_branch (h : Host) (argv : List String) (opt : Options) (t : List Event)
    (bag : Bag) (hp : parseArgs h argv {} = some (true, opt, t))
    (hf : h.fileExists opt.bag_path = some true) (hb : h.bagOpen opt.bag_path = .ok bag)
    (hv : bag.view [opt.topic] ≠ []) :
    main h argv =
      match mainLoop h opt (codecTry opt.codec) (bag.view [opt.topic])
          ⟨{}, "", ⟨0, 0⟩, true, 0, 0, t ++ [.fsExists opt.bag_path, .bagOpen opt.bag_path]⟩ with
      | .error st => ⟨some 1, st.trace⟩
      | .ok st => summary h opt st := by
  have hl : ¬ (bag.view [opt.topic]).length = 0 := by
    simpa [List.length_eq_zero] using hv
  simp only [main, hp, hf, hb, Bool.not_true, Bool.false_eq_true, if_false, hl]
  rfl

/-- The run of `main` when the view is not empty and no frame decodes. -/
theorem main_no_frame_decodes (h : Host) (argv : List String) (opt : Options)
    (t : List Event) (bag : Bag) (hp : parseArgs h argv {} = some (true, opt, t))
    (hf : h.fileExists opt.bag_path = some true) (hb : h.bagOpen opt.bag_path = .ok bag)
    (hv : bag.view [opt.topic] ≠ []) (hd : decodedFrames h (bag.view [opt.topic]) = []) :
    main h argv = ⟨some 1, t ++ [.fsExists opt.bag_path, .bagOpen opt.bag_path] ++
      [.writerRelease, .bagClose, .cerr "No frames written. Check bag and topic.\n"]⟩ := by
  rw [main_loop_branch h argv opt t bag hp hf hb hv,
    (mainLoop_initial h opt (codecTry opt.codec) (bag.view [opt.topic]) {} "" ⟨0, 0⟩ 0 0 _
      two64_pos two64_pos).1 hd]
  simp [summary]

/-- The run of `main` when no encoder opens for the first decoded frame. -/
theorem main_open_failed (h : Host) (argv : List String) (opt : Options)
    (t : List Event) (bag : Bag) (f : Mat) (rest : List Mat)
    (hp : parseArgs h argv {} = some (true, opt, t))
    (hf : h.fileExists opt.bag_path = some true) (hb : h.bagOpen opt.bag_path = .ok bag)
    (hd : decodedFrames h (bag.view [opt.topic]) = f :: rest)
    (hko : (tryOpenWriter h f.size opt.fps opt.output {} (codecTry opt.codec) "").ok = false) :
    main h argv = ⟨some 1, t ++ [.fsExists opt.bag_path, .bagOpen opt.bag_path] ++
      (tryOpenWriter h f.size opt.fps opt.output {} (codecTry opt.codec) "").trace ++
      [.cerr "Failed to open VideoWriter with requested codecs (H265 then H264 only).\n",
       .bagClose]⟩ := by
  have hv : bag.view [opt.topic] ≠ [] := by
    intro hn; rw [hn] at hd; simp [decodedFrames, payloads] at hd
  obtain ⟨sk1, hl⟩ := ((mainLoop_initial h opt (codecTry opt.codec) (bag.view [opt.topic]) {} ""
    ⟨0, 0⟩ 0 0 (t ++ [.fsExists opt.bag_path, .bagOpen opt.bag_path]) two64_pos two64_pos).2
      f rest hd).1 hko
  rw [main_loop_branch h argv opt t bag hp hf hb hv, hl]

/-- After the loop `main` releases the encoder, closes the bag and prints its
report; it returns 0 when the written counter is not 0. -/
theorem summary_shape (h : Host) (opt : Options) (st : LoopState) :
    ∃ status tail, (∀ e ∈ tail, e.isPrint = true) ∧
      summary h opt st = ⟨status, st.trace ++ [.writerRelease, .bagClose] ++ tail⟩ ∧
      (st.written ≠ 0 → status = some 0) := by
  by_cases hw : st.written = 0
  · exact ⟨some 1, [.cerr "No frames written. Check bag and topic.\n"],
      by simp [Event.isPrint], by simp [summary, hw], fun hn => absurd hw hn⟩
  by_cases hs : st.skipped_decode > 0
  · refine ⟨some 0, [.cout ("Finished writing " ++ toString st.written ++ " frames to " ++
        opt.output ++ " using codec " ++ st.chosen_codec ++ " in " ++
        h.showDouble h.elapsed ++ " s.\n"),
      .cout ("Skipped frames (decode failed): " ++ toString st.skipped_decode ++ "\n")],
      by simp [Event.isPrint], by simp [summary, hw, hs], fun _ => rfl⟩
  · refine ⟨some 0, [.cout ("Finished writing " ++ toString st.written ++ " frames to " ++
        opt.output ++ " using codec " ++ st.chosen_codec ++ " in " ++
        h.showDouble h.elapsed ++ " s.\n")],
      by simp [Event.isPrint], by simp [summary, hw, hs], fun _ => rfl⟩

/-- The run of `main` when an encoder opens for the first decoded frame. -/
theorem main_frames_written (h : Host) (argv : List String) (opt : Options)
    (t : List Event) (bag : Bag) (f : Mat) (rest : List Mat)
    (hp : parseArgs h argv {} = some (true, opt, t))
    (hf : h.fileExists opt.bag_path = some true) (hb : h.bagOpen opt.bag_path = .ok bag)
    (hd : decodedFrames h (bag.view [opt.topic]) = f :: rest)
    (hok : (tryOpenWriter h f.size opt.fps opt.output {} (codecTry opt.codec) "").ok = true) :
    ∃ status tail, (∀ e ∈ tail, e.isPrint = true) ∧
      main h argv = ⟨status, t ++ [.fsExists opt.bag_path, .bagOpen opt.bag_path] ++
        (tryOpenWriter h f.size opt.fps opt.output {} (codecTry opt.codec) "").trace ++
        [openedLine h opt
          (tryOpenWriter h f.size opt.fps opt.output {} (codecTry opt.codec) "").chosen_codec
          f.size] ++
        (f :: rest).map (fun img => .writerWrite (fit h f.size img)) ++
        [.writerRelease, .bagClose] ++ tail⟩ ∧
      (bag.messages.length < 2 ^ 64 → status = some 0) := by
  have hv : bag.view [opt.topic] ≠ [] := by
    intro hn; rw [hn] at hd; simp [decodedFrames, payloads] at hd
  have hl := ((mainLoop_initial h opt (codecTry opt.codec) (bag.view [opt.topic]) {} ""
    ⟨0, 0⟩ 0 0 (t ++ [.fsExists opt.bag_path, .bagOpen opt.bag_path]) two64_pos two64_pos).2
      f rest hd).2 hok
  have hc := counts_split h (bag.view [opt.topic])
  have hvl : (bag.view [opt.topic]).length ≤ bag.messages.length := List.length_filter_le _ _
  rw [hd] at hc
  have hw0 : (f :: rest).length ≠ 0 := by simp
  rw [main_loop_branch h argv opt t bag hp hf hb hv, hl]
  obtain ⟨status, tail, h1, h2, h3⟩ := summary_shape h opt
    ⟨(tryOpenWriter h f.size opt.fps opt.output {} (codecTry opt.codec) "").writer,
      (tryOpenWriter h f.size opt.fps opt.output {} (codecTry opt.codec) "").chosen_codec,
      f.size, false, (0 + (f :: rest).length) % 2 ^ 64,
      (0 + failedCount h (bag.view [opt.topic])) % 2 ^ 64,
      t ++ [.fsExists opt.bag_path, .bagOpen opt.bag_path] ++
        (tryOpenWriter h f.size opt.fps opt.output {} (codecTry opt.codec) "").trace ++
        [openedLine h opt
          (tryOpenWriter h f.size opt.fps opt.output {} (codecTry opt.codec) "").chosen_codec
          f.size] ++
        (f :: rest).map (fun img => .writerWrite (fit h f.size img))⟩
  refine ⟨status, tail, h1, h2, fun hlen => h3 ?_⟩
  have hw : (0 + (f :: rest).length) % 2 ^ 64 = (f :: rest).length := by
    rw [Nat.zero_add]; exact Nat.mod_eq_of_lt (by omega)
  simp only [hw]
  exact hw0

theorem noWrite_of_prints (l : List Event) (hl : ∀ e ∈ l, e.isPrint = true) : NoWrite l := by
  intro e he img hw
  have := hl e he
  rw [hw] at this
  simp [Event.isPrint] at this

theorem noWrite_append (a b : List Event) (ha : NoWrite a) (hb : NoWrite b) :
    NoWrite (a ++ b) := by
  intro e he
  rcases List.mem_append.1 he with h1 | h1
  · exact ha e h1
  · exact hb e h1

theorem noWrite_attempts (h : Host) (size : Size) (fps : Double) (filename : String)
    (l : List String) : NoWrite (l.map (attempt h size fps filename)) := by
  intro e he img hw
  obtain ⟨c, _, rfl⟩ := List.mem_map.1 he
  simp [attempt] at hw

theorem noWrite_tryOpenWriter (h : Host) (size : Size) (fps : Double) (filename : String)
    (w : VideoWriter) (l : List String) (chosen : String) :
    NoWrite (tryOpenWriter h size fps filename w l chosen).trace := by
  obtain ⟨tried, ht, _⟩ := tryOpenWriter_trace h size fps filename w l chosen
  rw [ht]
  exact noWrite_attempts h size fps filename _

theorem noWrite_reportAvailable (l : List String) : NoWrite (reportAvailable l) := by
  apply noWrite_of_prints
  intro e he
  unfold reportAvailable at he
  split_ifs at he
  · rcases List.mem_cons.1 he with rfl | he
    · rfl
    · obtain ⟨x, _, rfl⟩ := List.mem_map.1 he
      rfl
  · simp at he

/-- When `parseArgs` returns true it has printed nothing that is not console output. -/
theorem parseArgs_noWrite (h : Host) (argv : List String) (b : Bool) (o : Options)
    (t : List Event) (hp : parseArgs h argv {} = some (b, o, t)) : NoWrite t :=
  noWrite_of_prints t (parseArgs_prints h argv b o t hp)

/-- Every run of `main` either hands no frame to the encoder and does not return
0, or is a run in which the archive opened, a first frame decoded and an encoder
opened for it. -/
theorem main_shape (h : Host) (argv : List String) :
    (NoWrite (main h argv).trace ∧
      ((main h argv).status = some 1 ∨ (main h argv).status = none)) ∨
    ∃ opt t bag f rest status tail,
      parseArgs h argv {} = some (true, opt, t) ∧
      h.fileExists opt.bag_path = some true ∧ h.bagOpen opt.bag_path = .ok bag ∧
      decodedFrames h (bag.view [opt.topic]) = f :: rest ∧
      (tryOpenWriter h f.size opt.fps opt.output {} (codecTry opt.codec) "").ok = true ∧
      (∀ e ∈ tail, e.isPrint = true) ∧
      main h argv = ⟨status, t ++ [.fsExists opt.bag_path, .bagOpen opt.bag_path] ++
        (tryOpenWriter h f.size opt.fps opt.output {} (codecTry opt.codec) "").trace ++
        [openedLine h opt
          (tryOpenWriter h f.size opt.fps opt.output {} (codecTry opt.codec) "").chosen_codec
          f.size] ++
        (f :: rest).map (fun img => .writerWrite (fit h f.size img)) ++
        [.writerRelease, .bagClose] ++ tail⟩ ∧
      (bag.messages.length < 2 ^ 64 → status = some 0) := by
  cases hp : parseArgs h argv {} with
  | none =>
    left
    have hm : main h argv = ⟨none, []⟩ := by simp [main, hp]
    rw [hm]
    exact ⟨fun e he => by simp at he, Or.inr rfl⟩
  | some r =>
    obtain ⟨b, opt, t⟩ := r
    have ht := parseArgs_noWrite h argv b opt t hp
    cases b with
    | false =>
      left
      rw [main_of_parseArgs_false h argv opt t hp]
      exact ⟨ht, Or.inl rfl⟩
    | true =>
      rcases hf : h.fileExists opt.bag_path with _ | (_ | _)
      · left
        have hm : main h argv = ⟨none, t ++ [.fsExists opt.bag_path]⟩ := by
          simp [main, hp, hf]
        rw [hm]
        refine ⟨noWrite_append _ _ ht ?_, Or.inr rfl⟩
        intro e he img hw
        subst hw
        simp at he
      · left
        have hm : main h argv = ⟨some 1, t ++ [.fsExists opt.bag_path,
            .cerr ("Bag file not found: " ++ opt.bag_path ++ "\n")]⟩ := by
          simp [main, hp, hf]
        rw [hm]
        refine ⟨noWrite_append _ _ ht ?_, Or.inl rfl⟩
        intro e he img hw
        subst hw
        simp at he
      · cases hb : h.bagOpen opt.bag_path with
        | error what =>
          left
          have hm : main h argv = ⟨some 1, t ++ [.fsExists opt.bag_path, .bagOpen opt.bag_path,
              .cerr ("Failed to open bag: " ++ what ++ "\n")]⟩ := by
            simp [main, hp, hf, hb]
          rw [hm]
          refine ⟨noWrite_append _ _ ht ?_, Or.inl rfl⟩
          intro e he img hw
          subst hw
          simp at he
        | ok bag =>
          have ht1 : NoWrite (t ++ [.fsExists opt.bag_path, .bagOpen opt.bag_path]) := by
            refine noWrite_append _ _ ht ?_
            intro e he img hw
            subst hw
            simp at he
          by_cases hv : bag.view [opt.topic] = []
          · left
            have hm : main h argv = ⟨some 1, t ++ [.fsExists opt.bag_path, .bagOpen opt.bag_path] ++
                [.cerr ("No messages found on topic " ++ opt.topic ++ "\n")] ++
                reportAvailable (availableTopics bag) ++ [.bagClose]⟩ := by
              simp [main, hp, hf, hb, hv]
            rw [hm]
            refine ⟨noWrite_append _ _ (noWrite_append _ _ (noWrite_append _ _ ht1 ?_)
              (noWrite_reportAvailable _)) ?_, Or.inl rfl⟩
            · intro e he img hw
              subst hw
              simp at he
            · intro e he img hw
              subst hw
              simp at he
          · cases hd : decodedFrames h (bag.view [opt.topic]) with
            | nil =>
              left
              rw [main_no_frame_decodes h argv opt t bag hp hf hb hv hd]
              refine ⟨noWrite_append _ _ ht1 ?_, Or.inl rfl⟩
              intro e he img hw
              subst hw
              simp at he
            | cons f rest =>
              cases hok : (tryOpenWriter h f.size opt.fps opt.output {} (codecTry opt.codec) "").ok with
              | false =>
                left
                rw [main_open_failed h argv opt t bag f rest hp hf hb hd hok]
                refine ⟨noWrite_append _ _ (noWrite_append _ _ ht1
                  (noWrite_tryOpenWriter _ _ _ _ _ _ _)) ?_, Or.inl rfl⟩
                intro e he img hw
                subst hw
                simp at he
              | true =>
                right
                obtain ⟨status, tail, h1, h2, h3⟩ :=
                  main_frames_written h argv opt t bag f rest hp hf hb hd hok
                exact ⟨opt, t, bag, f, rest, status, tail, rfl, hf, hb, hd, hok, h1, h2, h3⟩

/-- In a trace made of a part without writes, a part of writes and a part without
writes, a write stands after the first part and belongs to the middle one. -/
theorem write_in_segment (A W B : List Event) (hA : NoWrite A) (hB : NoWrite B)
    (i : Nat) (img : Mat) (hi : (A ++ W ++ B)[i]? = some (.writerWrite img)) :
    A.length ≤ i ∧ Event.writerWrite img ∈ W := by
  by_cases h1 : i < A.length
  · rw [List.append_assoc, List.getElem?_append_left h1] at hi
    exact absurd rfl (hA _ (List.getElem?_mem hi) img)
  · have h2 : A.length ≤ i := Nat.le_of_not_lt h1
    refine ⟨h2, ?_⟩
    rw [List.append_assoc, List.getElem?_append_right h2] at hi
    by_cases h3 : i - A.length < W.length
    · rw [List.getElem?_append_left h3] at hi
      exact List.getElem?_mem hi
    · rw [List.getElem?_append_right (Nat.le_of_not_lt h3)] at hi
      exact absurd rfl (hB _ (List.getElem?_mem hi) img)

theorem fit_size (h : Host) (hres : ∀ m s, (h.resize m s).size = s) (fs : Size) (img : Mat) :
    (fit h fs img).size = fs := by
  unfold fit
  split_ifs with h1
  · exact hres img fs
  · exact not_not.1 h1

/-- C7: in every run, under the contract of `cv::resize` (the result has the
requested size), every frame handed to the encoder's write has exactly the
dimensions of the first successfully decoded frame, whatever the sizes of the
input frames, and an earlier event of the run is a successful open of the
encoder with exactly those dimensions: no frame is written before the encoder
has been opened. -/
theorem written_frames_have_first_size (h : Host) (argv : List String)
    (hres : ∀ m s, (h.resize m s).size = s) (i : Nat) (img : Mat)
    (hi : (main h argv).trace[i]? = some (.writerWrite img)) :
    ∃ opt t bag first,
      parseArgs h argv {} = some (true, opt, t) ∧ h.bagOpen opt.bag_path = .ok bag ∧
      firstFrame h (bag.view [opt.topic]) = some first ∧
      img.size = first.size ∧
      ∃ j tag, j < i ∧
        (main h argv).trace[j]? = some (.writerOpen opt.output tag opt.fps first.size true) := by
  rcases main_shape h argv with ⟨hn, _⟩ | ⟨opt, t, bag, f, rest, status, tail, hp, hf, hb, hd,
    hok, htail, hm, _⟩
  · exact absurd rfl (hn _ (List.getElem?_mem hi) img)
  · obtain ⟨tried, htr0, htrue⟩ := tryOpenWriter_trace h f.size opt.fps opt.output {}
      (codecTry opt.codec) ""
    obtain ⟨before, c, hsplit, ho⟩ := htrue hok
    have htr : (tryOpenWriter h f.size opt.fps opt.output {} (codecTry opt.codec) "").trace =
        (before ++ [c]).map (attempt h f.size opt.fps opt.output) := by
      rw [htr0, hsplit]
    have hev : attempt h f.size opt.fps opt.output c =
        .writerOpen opt.output (fourccFromString c) opt.fps f.size true := by
      simp [attempt, ho]
    have htr1 : (tryOpenWriter h f.size opt.fps opt.output {} (codecTry opt.codec) "").trace =
        before.map (attempt h f.size opt.fps opt.output) ++
          [.writerOpen opt.output (fourccFromString c) opt.fps f.size true] := by
      rw [htr, List.map_append, List.map_singleton, hev]
    have hshape : (main h argv).trace =
        ((t ++ [.fsExists opt.bag_path, .bagOpen opt.bag_path] ++
            before.map (attempt h f.size opt.fps opt.output)) ++
          [.writerOpen opt.output (fourccFromString c) opt.fps f.size true,
           openedLine h opt
            (tryOpenWriter h f.size opt.fps opt.output {} (codecTry opt.codec) "").chosen_codec
            f.size]) ++
        (f :: rest).map (fun img => .writerWrite (fit h f.size img)) ++
        ([.writerRelease, .bagClose] ++ tail) := by
      rw [hm, htr1]
      simp only [List.append_assoc, List.singleton_append, List.cons_append, List.nil_append]
    have hP : NoWrite (t ++ [.fsExists opt.bag_path, .bagOpen opt.bag_path] ++
        before.map (attempt h f.size opt.fps opt.output)) := by
      refine noWrite_append _ _ (noWrite_append _ _ (parseArgs_noWrite h argv true opt t hp) ?_)
        (noWrite_attempts _ _ _ _ _)
      intro e he img1 hw
      subst hw
      simp at he
    have hA : NoWrite ((t ++ [.fsExists opt.bag_path, .bagOpen opt.bag_path] ++
        before.map (attempt h f.size opt.fps opt.output)) ++
        [.writerOpen opt.output (fourccFromString c) opt.fps f.size true,
         openedLine h opt
          (tryOpenWriter h f.size opt.fps opt.output {} (codecTry opt.codec) "").chosen_codec
          f.size]) := by
      refine noWrite_append _ _ hP ?_
      intro e he img1 hw
      subst hw
      simp [openedLine] at he
    have hB : NoWrite ([.writerRelease, .bagClose] ++ tail) := by
      refine noWrite_append _ _ ?_ (noWrite_of_prints tail htail)
      intro e he img1 hw
      subst hw
      simp at he
    rw [hshape] at hi
    obtain ⟨hle, hmem⟩ := write_in_segment _ _ _ hA hB i img hi
    obtain ⟨src, _, hsrc⟩ := List.mem_map.1 hmem
    have himg : img = fit h f.size src := by
      injection hsrc with e1
      exact e1.symm
    refine ⟨opt, t, bag, f, hp, hb, by simp [firstFrame, hd], ?_, ?_⟩
    · rw [himg]; exact fit_size h hres f.size src
    · refine ⟨(t ++ [Event.fsExists opt.bag_path, Event.bagOpen opt.bag_path] ++
        before.map (attempt h f.size opt.fps opt.output)).length,
        fourccFromString c, ?_, ?_⟩
      · simp only [List.length_append, List.length_cons, List.length_nil] at hle ⊢
        omega
      · rw [hshape, List.append_assoc, List.append_assoc, List.getElem?_append_right (Nat.le_refl _)]
        simp

/-- The run on the `/cam` topic of the sample archive: the second frame, decoded at 8 by 6, is written at 4 by 3. -/
theorem written_frames_have_first_size_witness :
    (main sampleHost ["bag2video", "--bag", "run.bag", "--topic", "/cam"]).trace[10]? =
      some (.writerWrite ⟨⟨4, 3⟩, List.replicate 36 0⟩) ∧
    ∃ opt t bag first,
      parseArgs sampleHost ["bag2video", "--bag", "run.bag", "--topic", "/cam"] {} =
        some (true, opt, t) ∧
      sampleHost.bagOpen opt.bag_path = .ok bag ∧
      firstFrame sampleHost (bag.view [opt.topic]) = some first ∧
      (⟨⟨4, 3⟩, List.replicate 36 0⟩ : Mat).size = first.size ∧
      ∃ j tag, j < 10 ∧
        (main sampleHost ["bag2video", "--bag", "run.bag", "--topic", "/cam"]).trace[j]? =
          some (.writerOpen opt.output tag opt.fps first.size true) :=
  ⟨by decide,
   written_frames_have_first_size sampleHost ["bag2video", "--bag", "run.bag", "--topic", "/cam"]
     (fun _ _ => rfl) 10 ⟨⟨4, 3⟩, List.replicate 36 0⟩ (by decide)⟩

theorem writeCount_append (a b : List Event) :
    writeCount (a ++ b) = writeCount a + writeCount b := by
  simp [writeCount, List.filter_append]

theorem writeCount_noWrite (l : List Event) (hl : NoWrite l) : writeCount l = 0 := by
  simp only [writeCount, List.length_eq_zero, List.filter_eq_nil_iff]
  intro e he hw
  cases e with
  | writerWrite img => exact hl _ he img rfl
  | _ => simp [Event.isWrite] at hw

theorem writeCount_writes (g : Mat → Mat) (l : List Mat) :
    writeCount (l.map (fun img => Event.writerWrite (g img))) = l.length := by
  induction l with
  | nil => rfl
  | cons x xs ih =>
    simp only [writeCount, List.map_cons, List.filter_cons, Event.isWrite, if_true,
      List.length_cons] at ih ⊢
    rw [ih]

/-- C6: in a run of the driver loop from the initial state of `main` in which the
encoder opens for the first decoded frame, or in which no frame decodes, the
loop runs to its end, and there the written-frame counter plus the
skipped-decode counter equals the number of entries that instantiate as a
compressed image.  The written counter is the number of frames the loop handed
to the encoder (the write events it added to the trace, one per decoded frame,
after the open attempts and the opened line), and the skipped counter is the
number of image-typed entries whose decode came back empty; an entry of another
type leaves the whole loop state, both counters included, unchanged. -/
theorem frame_counts_add_up (h : Host) (opt : Options) (codec_try : List String)
    (view : List MessageInstance) (t1 : List Event)
    (hlen : view.length < 2 ^ 64)
    (hopen : ∀ f, firstFrame h view = some f →
      (tryOpenWriter h f.size opt.fps opt.output {} codec_try "").ok = true) :
    (∃ st, mainLoop h opt codec_try view { trace := t1 } = .ok st ∧
      st.written = (decodedFrames h view).length ∧
      st.skipped_decode = failedCount h view ∧
      st.written + st.skipped_decode = (view.filter (fun m => m.image.isSome)).length ∧
      writeCount st.trace = writeCount t1 + st.written ∧
      st.trace = t1 ++
        (match firstFrame h view with
         | none => []
         | some f =>
           (tryOpenWriter h f.size opt.fps opt.output {} codec_try "").trace ++
           [openedLine h opt (tryOpenWriter h f.size opt.fps opt.output {} codec_try "").chosen_codec
             f.size] ++
           (decodedFrames h view).map (fun img => .writerWrite (fit h f.size img)))) ∧
    (∀ st m, m.image = none → loopBody h opt codec_try st m = .ok st) := by
  have hc := counts_split h view
  have hi := mainLoop_initial h opt codec_try view {} "" ⟨0, 0⟩ 0 0 t1 two64_pos two64_pos
  refine ⟨?_, fun st m hm => by simp [loopBody, hm]⟩
  show ∃ st, mainLoop h opt codec_try view ⟨{}, "", ⟨0, 0⟩, true, 0, 0, t1⟩ = .ok st ∧ _
  cases hd : decodedFrames h view with
  | nil =>
    rw [hd] at hc
    have hff : firstFrame h view = none := by simp [firstFrame, hd]
    have e2 : (0 + failedCount h view) % 2 ^ 64 = failedCount h view := by
      rw [Nat.zero_add]; exact Nat.mod_eq_of_lt (by omega)
    refine ⟨_, hi.1 hd, ?_, e2, ?_, ?_, ?_⟩
    · simp
    · simp only [e2]; simpa using hc.1
    · simp
    · simp [hff]
  | cons f rest =>
    rw [hd] at hc
    have hff : firstFrame h view = some f := by simp [firstFrame, hd]
    have hok := hopen f hff
    have e1 : (0 + (f :: rest).length) % 2 ^ 64 = (f :: rest).length := by
      rw [Nat.zero_add]; exact Nat.mod_eq_of_lt (by omega)
    have e2 : (0 + failedCount h view) % 2 ^ 64 = failedCount h view := by
      rw [Nat.zero_add]; exact Nat.mod_eq_of_lt (by omega)
    refine ⟨_, (hi.2 f rest hd).2 hok, e1, e2, ?_, ?_, ?_⟩
    · simp only [e1, e2]; exact hc.1
    · simp only [e1]
      rw [writeCount_append, writeCount_append, writeCount_append,
        writeCount_noWrite _ (noWrite_tryOpenWriter h f.size opt.fps opt.output {} codec_try ""),
        writeCount_writes]
      have : writeCount [openedLine h opt
          (tryOpenWriter h f.size opt.fps opt.output {} codec_try "").chosen_codec f.size] = 0 :=
        rfl
      rw [this]
      simp
    · simp only [hff, List.append_assoc]

/-- The frame loop over the `/cam` entries of the sample archive: two frames are
handed to the encoder and one decode fails. -/
theorem frame_counts_add_up_witness :
    (sampleBag.view ["/cam"]).length < 2 ^ 64 ∧
    firstFrame sampleHost (sampleBag.view ["/cam"]) = some ⟨⟨4, 3⟩, List.replicate 36 0⟩ ∧
    decodedFrames sampleHost (sampleBag.view ["/cam"]) =
      [⟨⟨4, 3⟩, List.replicate 36 0⟩, ⟨⟨8, 6⟩, List.replicate 144 0⟩] ∧
    failedCount sampleHost (sampleBag.view ["/cam"]) = 1 ∧
    ∃ st, mainLoop sampleHost { bag_path := "run.bag", topic := "/cam" } (codecTry "auto")
        (sampleBag.view ["/cam"]) { trace := [] } = .ok st ∧
      st.written = (decodedFrames sampleHost (sampleBag.view ["/cam"])).length ∧
      st.skipped_decode = failedCount sampleHost (sampleBag.view ["/cam"]) ∧
      st.written + st.skipped_decode =
        ((sampleBag.view ["/cam"]).filter (fun m => m.image.isSome)).length ∧
      writeCount st.trace = writeCount [] + st.written :=
  have w := (frame_counts_add_up sampleHost { bag_path := "run.bag", topic := "/cam" }
      (codecTry "auto") (sampleBag.view ["/cam"]) [] (by decide)
      (fun f hf => by
        have e : firstFrame sampleHost (sampleBag.view ["/cam"]) =
            some ⟨⟨4, 3⟩, List.replicate 36 0⟩ := by decide
        rw [e] at hf
        injection hf with hf
        subst hf
        decide)).1
  ⟨by decide, by decide, by decide, by decide,
   w.elim fun st hst => ⟨st, hst.1, hst.2.1, hst.2.2.1, hst.2.2.2.1, hst.2.2.2.2.1⟩⟩

theorem data_trichotomy (a b : String) (h1 : ¬ a.data < b.data) (h2 : ¬ b.data < a.data) :
    a = b := by
  rcases lt_trichotomy a.data b.data with h | h | h
  · exact absurd h h1
  · exact String.ext h
  · exact absurd h h2

theorem mem_setInsert (t x : String) : ∀ l : List String, x ∈ setInsert t l ↔ x = t ∨ x ∈ l := by
  intro l
  induction l with
  | nil => simp [setInsert]
  | cons y ys ih =>
    unfold setInsert
    split_ifs with h1 h2
    · simp
    · simp only [List.mem_cons, ih]
      tauto
    · have e := data_trichotomy t y h1 h2
      subst e
      simp

theorem sorted_setInsert (t : String) : ∀ l : List String,
    l.Pairwise (fun a b => a.data < b.data) →
    (setInsert t l).Pairwise (fun a b => a.data < b.data) := by
  intro l
  induction l with
  | nil => intro _; simp [setInsert]
  | cons y ys ih =>
    intro hl
    obtain ⟨hy, hys⟩ := List.pairwise_cons.1 hl
    unfold setInsert
    split_ifs with h1 h2
    · refine List.pairwise_cons.2 ⟨?_, hl⟩
      intro z hz
      rcases List.mem_cons.1 hz with rfl | hz
      · exact h1
      · exact lt_trans h1 (hy z hz)
    · refine List.pairwise_cons.2 ⟨?_, ih hys⟩
      intro z hz
      rcases (mem_setInsert t z ys).1 hz with rfl | hz
      · exact h2
      · exact hy z hz
    · exact hl

theorem foldl_setInsert (conns : List ConnectionInfo) :
    ∀ acc : List String, acc.Pairwise (fun a b => a.data < b.data) →
      (conns.foldl (fun available c => setInsert c.topic available) acc).Pairwise
        (fun a b => a.data < b.data) ∧
      ∀ x, x ∈ conns.foldl (fun available c => setInsert c.topic available) acc ↔
        x ∈ acc ∨ ∃ c ∈ conns, c.topic = x := by
  induction conns with
  | nil => intro acc hacc; simp [hacc]
  | cons c cs ih =>
    intro acc hacc
    obtain ⟨i1, i2⟩ := ih (setInsert c.topic acc) (sorted_setInsert c.topic acc hacc)
    refine ⟨i1, fun x => ?_⟩
    simp only [List.foldl_cons, i2, mem_setInsert, List.mem_cons, exists_eq_or_imp]
    constructor
    · rintro ((h1 | h1) | h1)
      · exact Or.inr (Or.inl h1.symm)
      · exact Or.inl h1
      · exact Or.inr (Or.inr h1)
    · rintro (h1 | h1 | h1)
      · exact Or.inl (Or.inr h1)
      · exact Or.inl (Or.inl h1.symm)
      · exact Or.inr h1

/-- The set `available` holds each topic of the archive's connections once, in
increasing order. -/
theorem availableTopics_spec (bag : Bag) :
    (availableTopics bag).Pairwise (fun a b => a.data < b.data) ∧
    (availableTopics bag).Nodup ∧
    ∀ x, x ∈ availableTopics bag ↔ ∃ c ∈ bag.connections, c.topic = x := by
  obtain ⟨h1, h2⟩ := foldl_setInsert bag.connections [] List.Pairwise.nil
  refine ⟨h1, ?_, fun x => ?_⟩
  · exact List.Pairwise.imp (fun hab heq => by rw [heq] at hab; exact lt_irrefl _ hab) h1
  · have := h2 x
    simpa using this

/-- C10: for every configuration that `parseArgs` accepts and every archive that
opens and holds no entry on the configured topic, `main` returns 1, and the
lines it reports after the no-messages line are, when the archive has any
connection, the header line followed by one line per name of the list
`available`, which holds exactly the topic names of the archive's connections:
every topic of a connection is listed, nothing else is listed, and no name is
listed twice. -/
theorem no_match_reports_topics (h : Host) (argv : List String) (opt : Options)
    (t : List Event) (bag : Bag)
    (hp : parseArgs h argv {} = some (true, opt, t))
    (hf : h.fileExists opt.bag_path = some true) (hb : h.bagOpen opt.bag_path = .ok bag)
    (hv : ∀ m ∈ bag.messages, m.topic ≠ opt.topic) :
    (main h argv).status = some 1 ∧
    (main h argv).trace =
      t ++ [.fsExists opt.bag_path, .bagOpen opt.bag_path] ++
        [.cerr ("No messages found on topic " ++ opt.topic ++ "\n")] ++
        (if availableTopics bag ≠ [] then
          .cerr "Available topics in bag:\n" ::
            (availableTopics bag).map (fun name => .cerr ("  " ++ name ++ "\n"))
         else []) ++
        [.bagClose] ∧
    (availableTopics bag).Nodup ∧
    (∀ name, name ∈ availableTopics bag ↔ ∃ c ∈ bag.connections, c.topic = name) := by
  have hview : bag.view [opt.topic] = [] := by
    simp only [Bag.view, List.filter_eq_nil_iff, List.mem_singleton, decide_eq_true_eq]
    exact hv
  have hm : main h argv = ⟨some 1, t ++ [.fsExists opt.bag_path, .bagOpen opt.bag_path] ++
      [.cerr ("No messages found on topic " ++ opt.topic ++ "\n")] ++
      reportAvailable (availableTopics bag) ++ [.bagClose]⟩ := by
    simp [main, hp, hf, hb, hview]
  obtain ⟨_, h2, h3⟩ := availableTopics_spec bag
  refine ⟨by rw [hm], ?_, h2, h3⟩
  rw [hm]
  rfl

/-- The run on the topic `/depth`, which the sample archive does not hold. -/
theorem no_match_reports_topics_witness :
    (∀ m ∈ sampleBag.messages, m.topic ≠ "/depth") ∧
    availableTopics sampleBag = ["/bad", "/cam", "/imu"] ∧
    (main sampleHost ["bag2video", "--bag", "run.bag", "--topic", "/depth"]).status = some 1 ∧
    (main sampleHost ["bag2video", "--bag", "run.bag", "--topic", "/depth"]).trace =
      [] ++ [.fsExists "run.bag", .bagOpen "run.bag"] ++
        [.cerr ("No messages found on topic " ++ "/depth" ++ "\n")] ++
        (if availableTopics sampleBag ≠ [] then
          .cerr "Available topics in bag:\n" ::
            (availableTopics sampleBag).map (fun name => .cerr ("  " ++ name ++ "\n"))
         else []) ++
        [.bagClose] :=
  have w := no_match_reports_topics sampleHost
    ["bag2video", "--bag", "run.bag", "--topic", "/depth"]
    { bag_path := "run.bag", topic := "/depth" } [] sampleBag
    (by decide) (by decide) rfl (by decide)
  ⟨by decide, by decide, w.1, w.2.1⟩

end Bag2Video
